import Mathlib

/-
  Verification of the room presence tracker and upload handler of the
  vibeshare server (src/server/server.js, plus the upload-route variant
  in src/unnamed/part_000).

  The presence store is a JavaScript object
      activeUsers : { roomName: { username: { joinedAt, lastSeen } } }
  which we embed as association lists with string keys, mirroring the
  semantics of JS object assignment (update in place when the key is
  present, append otherwise), `delete`, and key lookup.  Timestamps are
  epoch milliseconds, embedded as `Nat`; the sweeper's staleness test
  `now - lastSeen > TIMEOUT` is carried out in `Int`, exactly as JS
  number subtraction behaves on these values.  JS truthiness of request
  body fields (`!roomName`) is embedded by `falsy` on `Option String`
  (absent field or empty string), and the truthiness of `r.joinedAt` in
  `r?.joinedAt || Date.now()` by an explicit test against 0.
-/

namespace VibeShare

/-- A membership record: `{ joinedAt, lastSeen }` (epoch milliseconds). -/
structure MemberRecord where
  joinedAt : Nat
  lastSeen : Nat
deriving DecidableEq, Repr

/-- A room's member map: JS object `{ username: record }` as an association list. -/
abbrev RoomMap := List (String × MemberRecord)

/-- The presence store: JS object `{ roomName: roomMap }` as an association list. -/
abbrev Store := List (String × RoomMap)

/-- Lookup of a key in a JS-object-like association list (`obj[k]`). -/
def getKey {α : Type} : List (String × α) → String → Option α
  | [], _ => none
  | (k', v) :: rest, k => if k' = k then some v else getKey rest k

/-- Assignment `obj[k] = v`: replace the first binding of `k` in place, else append. -/
def setKey {α : Type} : List (String × α) → String → α → List (String × α)
  | [], k, v => [(k, v)]
  | (k', v') :: rest, k, v =>
      if k' = k then (k, v) :: rest else (k', v') :: setKey rest k v

/-- Deletion `delete obj[k]`: remove every binding of `k`. -/
def delKey {α : Type} : List (String × α) → String → List (String × α)
  | [], _ => []
  | (k', v) :: rest, k => if k' = k then delKey rest k else (k', v) :: delKey rest k

/-- The record stored for `(room, member)`, if any:
`activeUsers[room]?.[member]` with a missing room read as the empty map. -/
def recordOf (s : Store) (room member : String) : Option MemberRecord :=
  getKey ((getKey s room).getD []) member

/-- JS truthiness test `!x` on a request body string field:
true exactly when the field is absent or the empty string. -/
def falsy : Option String → Bool
  | none => true
  | some s => decide (s = "")

/-- Sweep period of the `setInterval` scheduler: 30000 ms. -/
def SWEEP_PERIOD : Nat := 30000

/-- Staleness timeout used by the sweeper: `const TIMEOUT = 45000`. -/
def TIMEOUT : Nat := 45000

/-- The sweeper's staleness test `now - user.lastSeen > TIMEOUT`,
computed in `Int` exactly as JS number subtraction. -/
def isStale (now timeout : Nat) (r : MemberRecord) : Bool :=
  decide ((now : Int) - (r.lastSeen : Int) > (timeout : Int))

/-- One sweep pass over the store (the body of the `setInterval` callback,
with `now` and the timeout as parameters): for every room delete every
member with `now - lastSeen > timeout`, then delete every room whose
member map is empty. -/
def sweep (s : Store) (now timeout : Nat) : Store :=
  (s.map (fun p => (p.1, p.2.filter (fun q => !(isStale now timeout q.2))))).filter
    (fun p => !(p.2.isEmpty))

/-- The sweep tick as scheduled: fixed timeout `TIMEOUT`. -/
def sweepTick (s : Store) (now : Nat) : Store :=
  sweep s now TIMEOUT

/-- Store mutation of `POST /api/users/join`:
create the room if absent, then `activeUsers[room][member] = {joinedAt: now, lastSeen: now}`. -/
def joinOp (s : Store) (room member : String) (now : Nat) : Store :=
  let s1 := if (getKey s room).isNone then setKey s room [] else s
  let rm := (getKey s1 room).getD []
  setKey s1 room (setKey rm member ⟨now, now⟩)

/-- The expression `activeUsers[room][member]?.joinedAt || now`: keep the old `joinedAt`
unless the record is absent or its `joinedAt` is falsy (0). -/
def hbJoinedAt (old : Option MemberRecord) (now : Nat) : Nat :=
  match old with
  | none => now
  | some r => if r.joinedAt = 0 then now else r.joinedAt

/-- Store mutation of `POST /api/users/heartbeat`:
create the room if absent, then
`activeUsers[room][member] = {joinedAt: old?.joinedAt || now, lastSeen: now}`. -/
def heartbeatOp (s : Store) (room member : String) (now : Nat) : Store :=
  let s1 := if (getKey s room).isNone then setKey s room [] else s
  let rm := (getKey s1 room).getD []
  setKey s1 room (setKey rm member ⟨hbJoinedAt (getKey rm member) now, now⟩)

/-- First statement of the leave handler:
`if (activeUsers[room] && activeUsers[room][member]) delete activeUsers[room][member]`. -/
def removeMember (s : Store) (room member : String) : Store :=
  match getKey s room with
  | none => s
  | some rm => if (getKey rm member).isSome then setKey s room (delKey rm member) else s

/-- Second statement of the leave handler (and the per-room step of the sweeper):
`if (activeUsers[room] && Object.keys(activeUsers[room]).length === 0) delete activeUsers[room]`. -/
def cleanupRoom (s : Store) (room : String) : Store :=
  match getKey s room with
  | none => s
  | some rm => if rm.isEmpty then delKey s room else s

/-- Store mutation of `DELETE /api/users/leave`:
delete the member when both room and member exist, then delete the room
when it exists and has become empty. -/
def leaveOp (s : Store) (room member : String) : Store :=
  cleanupRoom (removeMember s room member) room

/-- Responses of the presence API handlers. -/
inductive ApiResponse where
  | validationError (msg : String)
  | joined (message : String) (activeUsers : RoomMap)
  | heartbeatOk (activeUsers : RoomMap)
  | roomList (roomName : String) (activeUserCount : Nat)
      (users : List (String × Nat × Nat))
  | left (message : String)
deriving DecidableEq, Repr

/-- HTTP status of each presence API response. -/
def ApiResponse.status : ApiResponse → Nat
  | .validationError _ => 400
  | _ => 200

/-- Handler of `POST /api/users/join`: validate `!roomName || !username`, mutate the
store, answer 200 with `{message, activeUsers: activeUsers[roomName]}`. -/
def joinHandler (s : Store) (roomName username : Option String) (now : Nat) :
    Store × ApiResponse :=
  if falsy roomName || falsy username then
    (s, .validationError "roomName and username required")
  else
    let room := roomName.getD ""
    let s' := joinOp s room (username.getD "") now
    (s', .joined "Joined room" ((getKey s' room).getD []))

/-- Handler of `POST /api/users/heartbeat`: validate, mutate, answer 200 with
`{activeUsers: activeUsers[roomName]}`. -/
def heartbeatHandler (s : Store) (roomName username : Option String) (now : Nat) :
    Store × ApiResponse :=
  if falsy roomName || falsy username then
    (s, .validationError "roomName and username required")
  else
    let room := roomName.getD ""
    let s' := heartbeatOp s room (username.getD "") now
    (s', .heartbeatOk ((getKey s' room).getD []))

/-- Handler of `GET /api/users/:roomName`: read-only; an unknown room yields the empty
user list; answers `{roomName, activeUserCount: users.length, users}`. -/
def listHandler (s : Store) (roomName : String) : Store × ApiResponse :=
  let users :=
    match getKey s roomName with
    | none => []
    | some rm => rm.map (fun p => (p.1, p.2.joinedAt, p.2.lastSeen))
  (s, .roomList roomName users.length users)

/-- Handler of `DELETE /api/users/leave`: validate, mutate, answer 200 with a message. -/
def leaveHandler (s : Store) (roomName username : Option String) :
    Store × ApiResponse :=
  if falsy roomName || falsy username then
    (s, .validationError "roomName and username required")
  else
    (leaveOp s (roomName.getD "") (username.getD ""), .left "Left room")

/-- One presence call for a fixed `(room, member)` pair, tagged with its timestamp. -/
inductive Call where
  | join (t : Nat)
  | heartbeat (t : Nat)
deriving DecidableEq, Repr

/-- The timestamp carried by a call. -/
def Call.time : Call → Nat
  | .join t => t
  | .heartbeat t => t

/-- Apply one call to the store. -/
def applyCall (s : Store) (room member : String) : Call → Store
  | .join t => joinOp s room member t
  | .heartbeat t => heartbeatOp s room member t

/-- Run a sequence of join/heartbeat calls for one `(room, member)` pair. -/
def runCalls (s : Store) (room member : String) : List Call → Store
  | [] => s
  | c :: cs => runCalls (applyCall s room member c) room member cs

/-- The `joinedAt` value the code produces after further calls, starting
from a current value `d`: every join resets it, heartbeats keep it. -/
def specJoinedAt : Nat → List Call → Nat
  | d, [] => d
  | d, c :: cs => specJoinedAt (match c with | .join t => t | .heartbeat _ => d) cs

/-- The `lastSeen` value after further calls, starting from `d`:
the timestamp of the most recent call. -/
def specLastSeen : Nat → List Call → Nat
  | d, [] => d
  | _, c :: cs => specLastSeen c.time cs

/-- Every room present in the store has at least one member record
(the room-key-present-iff-nonempty invariant; the other direction is
definitional: a member record only exists inside a present room key). -/
abbrev NoEmptyRooms (s : Store) : Prop := ∀ p ∈ s, p.2 ≠ []

/-- Well-formed store: no duplicate room keys, no duplicate member keys
(always true of JS objects). -/
abbrev WFStore (s : Store) : Prop :=
  (s.map Prod.fst).Nodup ∧ ∀ p ∈ s, (p.2.map Prod.fst).Nodup

/-- The record one call produces from the previous record of the same pair:
a join overwrites both fields, a heartbeat keeps a truthy `joinedAt`. -/
def recAfter (old : Option MemberRecord) : Call → MemberRecord
  | .join t => ⟨t, t⟩
  | .heartbeat t => ⟨hbJoinedAt old t, t⟩

/-- An uploaded file as multer delivers it (only the fields the handler reads). -/
structure UFile where
  originalname : String
  buffer : String
deriving DecidableEq, Repr

/-- Result of a successful Cloudinary upload (the fields the handler reads). -/
structure UploadResult where
  secure_url : String
  public_id : String
deriving DecidableEq, Repr

/-- A photo document as constructed by `POST /api/upload` in src/server/server.js. -/
structure Photo where
  imageUrl : String
  publicId : String
  roomName : String
  username : String
deriving DecidableEq, Repr

/-- A photo document as constructed by the upload-route variant in
src/unnamed/part_000 (body fields are passed through without defaults). -/
structure PhotoV where
  imageUrl : String
  publicId : String
  roomName : Option String
  username : Option String
deriving DecidableEq, Repr

/-- JS `x || d` on an optional string body field. -/
def orDefault (x : Option String) (d : String) : String :=
  match x with
  | none => d
  | some s => if s = "" then d else s

/-- Responses of the upload route, over the photo payload type. -/
inductive UploadResponse (π : Type) where
  | badRequest (msg : String)
  | serverError (msg : String)
  | okPhoto (photo : π)
deriving DecidableEq, Repr

/-- HTTP status of each upload-route response. -/
def UploadResponse.status {π : Type} : UploadResponse π → Nat
  | .badRequest _ => 400
  | .serverError _ => 500
  | .okPhoto _ => 200

/-- Handler of `POST /api/upload` (src/server/server.js): reject when no files arrived;
stream-upload the first file to Cloudinary; only on success build the photo
document and save it; any thrown failure is caught and answered with
status 500.  The collaborator outcomes (Cloudinary upload, DB save) enter as
`Except` parameters; the first component of the result is the photo record
persisted by the request, if any. -/
def uploadHandler (files : List UFile) (roomName username : Option String)
    (upl : Except String UploadResult) (dbSave : Except String Unit) :
    Option Photo × UploadResponse Photo :=
  match files with
  | [] => (none, .badRequest "No files uploaded")
  | _ :: _ =>
    match upl with
    | .error e => (none, .serverError e)
    | .ok result =>
      let photo : Photo :=
        ⟨result.secure_url, result.public_id,
         orDefault roomName "general", orDefault username "Anonymous"⟩
      match dbSave with
      | .error e => (none, .serverError e)
      | .ok _ => (some photo, .okPhoto photo)

/-- Handler of `POST /api/upload` in the earlier server variant (src/unnamed/part_000):
first writes the buffer to a temp file (which may itself fail), then uploads
that file, then saves the document; temp-file cleanup does not affect
persistence; every failure is caught and answered with status 500. -/
def uploadHandlerVariant (files : List UFile) (roomName username : Option String)
    (tempWrite : Except String Unit) (upl : Except String UploadResult)
    (dbSave : Except String Unit) : Option PhotoV × UploadResponse PhotoV :=
  match files with
  | [] => (none, .badRequest "No files")
  | _ :: _ =>
    match tempWrite with
    | .error e => (none, .serverError e)
    | .ok _ =>
      match upl with
      | .error e => (none, .serverError e)
      | .ok result =>
        let photo : PhotoV := ⟨result.secure_url, result.public_id, roomName, username⟩
        match dbSave with
        | .error e => (none, .serverError e)
        | .ok _ => (some photo, .okPhoto photo)

/-! ### Association-list lemmas -/

theorem getKey_setKey_self {α : Type} (l : List (String × α)) (k : String) (v : α) :
    getKey (setKey l k v) k = some v := by
  induction l with
  | nil => simp [setKey, getKey]
  | cons p rest ih =>
    obtain ⟨k', v'⟩ := p
    by_cases h : k' = k
    · simp [setKey, getKey, h]
    · simp [setKey, getKey, h, ih]

theorem getKey_setKey_ne {α : Type} (l : List (String × α)) (k k' : String) (v : α)
    (h : k' ≠ k) : getKey (setKey l k v) k' = getKey l k' := by
  have hkk : ¬ (k = k') := fun hh => h hh.symm
  induction l with
  | nil => simp [setKey, getKey, hkk]
  | cons p rest ih =>
    obtain ⟨k0, v0⟩ := p
    by_cases h0 : k0 = k
    · subst h0
      simp [setKey, getKey, hkk]
    · by_cases h1 : k0 = k'
      · simp [setKey, getKey, h0, h1, h]
      · simp [setKey, getKey, h0, h1, ih]

theorem getKey_delKey_self {α : Type} (l : List (String × α)) (k : String) :
    getKey (delKey l k) k = none := by
  induction l with
  | nil => simp [delKey, getKey]
  | cons p rest ih =>
    obtain ⟨k', v⟩ := p
    by_cases h : k' = k
    · simp [delKey, h, ih]
    · simp [delKey, getKey, h, ih]

theorem getKey_delKey_ne {α : Type} (l : List (String × α)) (k k' : String)
    (h : k' ≠ k) : getKey (delKey l k) k' = getKey l k' := by
  have hkk : ¬ (k = k') := fun hh => h hh.symm
  induction l with
  | nil => simp [delKey]
  | cons p rest ih =>
    obtain ⟨k0, v0⟩ := p
    by_cases h0 : k0 = k
    · subst h0
      simp [delKey, getKey, hkk, ih]
    · by_cases h1 : k0 = k'
      · simp [delKey, getKey, h0, h1, h]
      · simp [delKey, getKey, h0, h1, ih]

theorem mem_setKey {α : Type} (l : List (String × α)) (k : String) (v : α)
    (p : String × α) (hp : p ∈ setKey l k v) : p = (k, v) ∨ p ∈ l := by
  induction l with
  | nil =>
    simp [setKey] at hp
    exact Or.inl hp
  | cons q rest ih =>
    obtain ⟨k0, v0⟩ := q
    by_cases h0 : k0 = k
    · simp [setKey, h0] at hp
      rcases hp with hp | hp
      · exact Or.inl hp
      · exact Or.inr (List.mem_cons_of_mem _ hp)
    · simp [setKey, h0] at hp
      rcases hp with hp | hp
      · exact Or.inr (by simp [hp])
      · rcases ih hp with h | h
        · exact Or.inl h
        · exact Or.inr (List.mem_cons_of_mem _ h)

theorem setKey_ne_nil {α : Type} (l : List (String × α)) (k : String) (v : α) :
    setKey l k v ≠ [] := by
  cases l with
  | nil => simp [setKey]
  | cons q rest =>
    obtain ⟨k0, v0⟩ := q
    by_cases h0 : k0 = k <;> simp [setKey, h0]

theorem setKey_setKey_same {α : Type} (l : List (String × α)) (k : String) (v w : α) :
    setKey (setKey l k v) k w = setKey l k w := by
  induction l with
  | nil => simp [setKey]
  | cons q rest ih =>
    obtain ⟨k0, v0⟩ := q
    by_cases h0 : k0 = k
    · simp [setKey, h0]
    · simp [setKey, h0, ih]

theorem getKey_mem {α : Type} (l : List (String × α)) (k : String) (v : α)
    (h : getKey l k = some v) : (k, v) ∈ l := by
  induction l with
  | nil => simp [getKey] at h
  | cons q rest ih =>
    obtain ⟨k0, v0⟩ := q
    by_cases h0 : k0 = k
    · subst h0
      simp [getKey] at h
      simp [h]
    · simp [getKey, h0] at h
      exact List.mem_cons_of_mem _ (ih h)

theorem mem_delKey {α : Type} (l : List (String × α)) (k : String)
    (p : String × α) (hp : p ∈ delKey l k) : p ∈ l ∧ p.1 ≠ k := by
  induction l with
  | nil => simp [delKey] at hp
  | cons q rest ih =>
    obtain ⟨k0, v0⟩ := q
    by_cases h0 : k0 = k
    · simp [delKey, h0] at hp
      obtain ⟨h1, h2⟩ := ih hp
      exact ⟨List.mem_cons_of_mem _ h1, h2⟩
    · simp [delKey, h0] at hp
      rcases hp with hp | hp
      · exact ⟨by simp [hp], by simp [hp, h0]⟩
      · obtain ⟨h1, h2⟩ := ih hp
        exact ⟨List.mem_cons_of_mem _ h1, h2⟩

theorem getKey_eq_none_of_not_mem {α : Type} (l : List (String × α)) (k : String)
    (h : k ∉ l.map Prod.fst) : getKey l k = none := by
  induction l with
  | nil => simp [getKey]
  | cons q rest ih =>
    obtain ⟨k0, v0⟩ := q
    rw [List.map_cons] at h
    have h1 : ¬ (k0 = k) := by
      intro hh
      subst hh
      exact h (List.mem_cons_self _ _)
    have h2 : k ∉ rest.map Prod.fst := fun hh => h (List.mem_cons_of_mem _ hh)
    simp [getKey, h1, ih h2]

theorem getKey_map_snd {α β : Type} (l : List (String × α)) (f : α → β) (k : String) :
    getKey (l.map (fun p => (p.1, f p.2))) k = (getKey l k).map f := by
  induction l with
  | nil => simp [getKey]
  | cons q rest ih =>
    obtain ⟨k0, v0⟩ := q
    by_cases h0 : k0 = k <;> simp [getKey, h0, ih]

theorem getKey_filter {α : Type} (l : List (String × α)) (q : String × α → Bool)
    (k : String) (hnd : (l.map Prod.fst).Nodup) :
    getKey (l.filter q) k =
      match getKey l k with
      | none => none
      | some v => if q (k, v) then some v else none := by
  induction l with
  | nil => simp [getKey]
  | cons p rest ih =>
    obtain ⟨k0, v0⟩ := p
    simp at hnd
    by_cases h0 : k0 = k
    · subst h0
      by_cases hq : q (k0, v0)
      · simp [List.filter, hq, getKey]
      · have hnone : getKey rest k0 = none := by
          apply getKey_eq_none_of_not_mem
          intro hmem
          simp at hmem
          obtain ⟨b, hb⟩ := hmem
          exact hnd.1 b hb
        simp [List.filter, hq, getKey, ih hnd.2, hnone]
    · by_cases hq : q (k0, v0)
      · simp [List.filter, hq, getKey, h0, ih hnd.2]
      · simp [List.filter, hq, getKey, h0, ih hnd.2]

/-! ### Normal forms of the store operations -/

theorem joinOp_eq (s : Store) (room member : String) (now : Nat) :
    joinOp s room member now
      = setKey s room (setKey ((getKey s room).getD []) member ⟨now, now⟩) := by
  unfold joinOp
  cases h : getKey s room with
  | none =>
    simp [h, getKey_setKey_self, setKey_setKey_same]
  | some rm =>
    simp [h]

theorem heartbeatOp_eq (s : Store) (room member : String) (now : Nat) :
    heartbeatOp s room member now
      = setKey s room
          (setKey ((getKey s room).getD []) member
            ⟨hbJoinedAt (getKey ((getKey s room).getD []) member) now, now⟩) := by
  unfold heartbeatOp
  cases h : getKey s room with
  | none =>
    simp [h, getKey_setKey_self, setKey_setKey_same]
  | some rm =>
    simp [h]

theorem recordOf_joinOp_self (s : Store) (room member : String) (now : Nat) :
    recordOf (joinOp s room member now) room member = some ⟨now, now⟩ := by
  rw [recordOf, joinOp_eq, getKey_setKey_self]
  simp [getKey_setKey_self]

theorem recordOf_heartbeatOp_self (s : Store) (room member : String) (now : Nat) :
    recordOf (heartbeatOp s room member now) room member
      = some ⟨hbJoinedAt (recordOf s room member) now, now⟩ := by
  rw [recordOf, heartbeatOp_eq, getKey_setKey_self]
  simp [getKey_setKey_self, recordOf]

theorem eq_nil_of_isEmpty {α : Type} (l : List α) (h : l.isEmpty = true) : l = [] := by
  cases l with
  | nil => rfl
  | cons a t => simp [List.isEmpty] at h

theorem removeMember_no_room (s : Store) (room member : String)
    (hr : getKey s room = none) : removeMember s room member = s := by
  unfold removeMember
  rw [hr]

theorem removeMember_no_member (s : Store) (room member : String) (rm : RoomMap)
    (hr : getKey s room = some rm) (hm : getKey rm member = none) :
    removeMember s room member = s := by
  unfold removeMember
  rw [hr]
  exact if_neg (by simp [hm])

theorem removeMember_del (s : Store) (room member : String) (rm : RoomMap)
    (hr : getKey s room = some rm) (hm : (getKey rm member).isSome = true) :
    removeMember s room member = setKey s room (delKey rm member) := by
  unfold removeMember
  rw [hr]
  exact if_pos hm

theorem cleanupRoom_no_room (s : Store) (room : String)
    (hr : getKey s room = none) : cleanupRoom s room = s := by
  unfold cleanupRoom
  rw [hr]

theorem cleanupRoom_del (s : Store) (room : String) (rm : RoomMap)
    (hr : getKey s room = some rm) (he : rm.isEmpty = true) :
    cleanupRoom s room = delKey s room := by
  unfold cleanupRoom
  rw [hr]
  exact if_pos he

theorem cleanupRoom_keep (s : Store) (room : String) (rm : RoomMap)
    (hr : getKey s room = some rm) (he : rm.isEmpty = false) :
    cleanupRoom s room = s := by
  unfold cleanupRoom
  rw [hr]
  exact if_neg (by simp [he])

/-! ### Frame lemmas for the three mutating operations -/

theorem getKey_joinOp_ne (s : Store) (room member room' : String) (now : Nat)
    (h : room' ≠ room) : getKey (joinOp s room member now) room' = getKey s room' := by
  rw [joinOp_eq, getKey_setKey_ne _ _ _ _ h]

theorem getKey_heartbeatOp_ne (s : Store) (room member room' : String) (now : Nat)
    (h : room' ≠ room) : getKey (heartbeatOp s room member now) room' = getKey s room' := by
  rw [heartbeatOp_eq, getKey_setKey_ne _ _ _ _ h]

theorem getKey_removeMember_ne (s : Store) (room member room' : String)
    (h : room' ≠ room) : getKey (removeMember s room member) room' = getKey s room' := by
  unfold removeMember
  cases hr : getKey s room with
  | none => rfl
  | some rm =>
    by_cases hm : (getKey rm member).isSome
    · simp [hm, getKey_setKey_ne _ _ _ _ h]
    · simp [hm]

theorem getKey_cleanupRoom_ne (s : Store) (room room' : String)
    (h : room' ≠ room) : getKey (cleanupRoom s room) room' = getKey s room' := by
  unfold cleanupRoom
  cases hr : getKey s room with
  | none => rfl
  | some rm =>
    by_cases he : rm.isEmpty
    · simp [he, getKey_delKey_ne _ _ _ h]
    · simp [he]

theorem getKey_leaveOp_ne (s : Store) (room member room' : String)
    (h : room' ≠ room) : getKey (leaveOp s room member) room' = getKey s room' := by
  rw [leaveOp, getKey_cleanupRoom_ne _ _ _ h, getKey_removeMember_ne _ _ _ _ h]

theorem recordOf_joinOp_ne_member (s : Store) (room member member' : String) (now : Nat)
    (h : member' ≠ member) :
    recordOf (joinOp s room member now) room member' = recordOf s room member' := by
  rw [recordOf, recordOf, joinOp_eq, getKey_setKey_self]
  simp [getKey_setKey_ne _ _ _ _ h]

theorem recordOf_heartbeatOp_ne_member (s : Store) (room member member' : String) (now : Nat)
    (h : member' ≠ member) :
    recordOf (heartbeatOp s room member now) room member' = recordOf s room member' := by
  rw [recordOf, recordOf, heartbeatOp_eq, getKey_setKey_self]
  simp [getKey_setKey_ne _ _ _ _ h]

theorem recordOf_leaveOp_ne_member (s : Store) (room member member' : String)
    (h : member' ≠ member) :
    recordOf (leaveOp s room member) room member' = recordOf s room member' := by
  rw [leaveOp]
  cases hr : getKey s room with
  | none =>
    rw [removeMember_no_room s room member hr, cleanupRoom_no_room s room hr]
  | some rm =>
    cases hm : getKey rm member with
    | none =>
      rw [removeMember_no_member s room member rm hr hm]
      by_cases he : rm.isEmpty
      · have hrm : rm = [] := eq_nil_of_isEmpty rm he
        rw [cleanupRoom_del s room rm hr he]
        rw [recordOf, recordOf, getKey_delKey_self, hr, hrm]
        rfl
      · simp only [Bool.not_eq_true] at he
        rw [cleanupRoom_keep s room rm hr he]
    | some r =>
      have hm' : (getKey rm member).isSome = true := by simp [hm]
      rw [removeMember_del s room member rm hr hm']
      have hget : getKey (setKey s room (delKey rm member)) room
          = some (delKey rm member) :=
        getKey_setKey_self s room (delKey rm member)
      by_cases he : (delKey rm member).isEmpty
      · have hdel : delKey rm member = [] := eq_nil_of_isEmpty _ he
        rw [cleanupRoom_del _ room _ hget he]
        rw [recordOf, recordOf, getKey_delKey_self, hr]
        have hgk : getKey (delKey rm member) member' = getKey rm member' :=
          getKey_delKey_ne rm member member' h
        rw [hdel] at hgk
        simp only [Option.getD]
        exact hgk
      · simp only [Bool.not_eq_true] at he
        rw [cleanupRoom_keep _ room _ hget he]
        rw [recordOf, recordOf, hget, hr]
        simp only [Option.getD]
        exact getKey_delKey_ne rm member member' h

/-! ### Key-uniqueness bookkeeping -/

theorem isEmpty_false_of_ne_nil {α : Type} (l : List α) (h : l ≠ []) :
    l.isEmpty = false := by
  cases l with
  | nil => exact absurd rfl h
  | cons a t => rfl

theorem mem_keys_setKey {α : Type} (l : List (String × α)) (k x : String) (v : α)
    (hx : x ∈ (setKey l k v).map Prod.fst) : x = k ∨ x ∈ l.map Prod.fst := by
  induction l with
  | nil =>
    simp [setKey] at hx
    exact Or.inl hx
  | cons q rest ih =>
    obtain ⟨k0, v0⟩ := q
    by_cases h0 : k0 = k
    · simp [setKey, h0] at hx
      rcases hx with hx | hx
      · exact Or.inl hx
      · exact Or.inr (by simp [hx])
    · simp [setKey, h0] at hx
      rcases hx with hx | hx
      · exact Or.inr (by simp [hx])
      · rcases ih (by simpa using hx) with h | h
        · exact Or.inl h
        · exact Or.inr (by simp [h])

theorem keysNodup_setKey {α : Type} (l : List (String × α)) (k : String) (v : α)
    (h : (l.map Prod.fst).Nodup) : ((setKey l k v).map Prod.fst).Nodup := by
  induction l with
  | nil => simp [setKey]
  | cons q rest ih =>
    obtain ⟨k0, v0⟩ := q
    rw [List.map_cons, List.nodup_cons] at h
    by_cases h0 : k0 = k
    · subst h0
      simpa [setKey, List.nodup_cons] using h
    · rw [setKey, if_neg h0, List.map_cons, List.nodup_cons]
      refine ⟨fun hx => ?_, ih h.2⟩
      rcases mem_keys_setKey rest k k0 v hx with hh | hh
      · exact h0 hh
      · exact h.1 hh

theorem mem_keys_delKey {α : Type} (l : List (String × α)) (k x : String)
    (hx : x ∈ (delKey l k).map Prod.fst) : x ∈ l.map Prod.fst := by
  induction l with
  | nil => simp [delKey] at hx
  | cons q rest ih =>
    obtain ⟨k0, v0⟩ := q
    by_cases h0 : k0 = k
    · rw [delKey, if_pos h0] at hx
      exact List.mem_cons_of_mem _ (ih hx)
    · rw [delKey, if_neg h0, List.map_cons] at hx
      rcases List.mem_cons.mp hx with hx | hx
      · simp [hx]
      · exact List.mem_cons_of_mem _ (ih hx)

theorem keysNodup_delKey {α : Type} (l : List (String × α)) (k : String)
    (h : (l.map Prod.fst).Nodup) : ((delKey l k).map Prod.fst).Nodup := by
  induction l with
  | nil => simp [delKey]
  | cons q rest ih =>
    obtain ⟨k0, v0⟩ := q
    rw [List.map_cons, List.nodup_cons] at h
    by_cases h0 : k0 = k
    · rw [delKey, if_pos h0]
      exact ih h.2
    · rw [delKey, if_neg h0, List.map_cons, List.nodup_cons]
      exact ⟨fun hx => h.1 (mem_keys_delKey rest k k0 hx), ih h.2⟩

/-- With unique keys, every entry is the one `getKey` finds. -/
theorem getKey_of_mem_nodup {α : Type} (l : List (String × α)) (p : String × α)
    (hnd : (l.map Prod.fst).Nodup) (hp : p ∈ l) : getKey l p.1 = some p.2 := by
  induction l with
  | nil => simp at hp
  | cons q rest ih =>
    obtain ⟨k0, v0⟩ := q
    rw [List.map_cons, List.nodup_cons] at hnd
    rcases List.mem_cons.mp hp with hp | hp
    · rw [hp]
      simp [getKey]
    · by_cases h0 : k0 = p.1
      · exfalso
        apply hnd.1
        have hmem : p.1 ∈ rest.map Prod.fst := List.mem_map_of_mem Prod.fst hp
        rwa [← h0] at hmem
      · rw [getKey, if_neg h0]
        exact ih hnd.2 hp

/-! ### The no-empty-rooms invariant -/

theorem noEmptyRooms_joinOp (s : Store) (room member : String) (now : Nat)
    (h : NoEmptyRooms s) : NoEmptyRooms (joinOp s room member now) := by
  rw [joinOp_eq]
  intro p hp
  rcases mem_setKey _ _ _ _ hp with hp | hp
  · rw [hp]
    exact setKey_ne_nil _ _ _
  · exact h p hp

theorem noEmptyRooms_heartbeatOp (s : Store) (room member : String) (now : Nat)
    (h : NoEmptyRooms s) : NoEmptyRooms (heartbeatOp s room member now) := by
  rw [heartbeatOp_eq]
  intro p hp
  rcases mem_setKey _ _ _ _ hp with hp | hp
  · rw [hp]
    exact setKey_ne_nil _ _ _
  · exact h p hp

theorem keysNodup_removeMember (s : Store) (room member : String)
    (hnd : (s.map Prod.fst).Nodup) :
    ((removeMember s room member).map Prod.fst).Nodup := by
  cases hr : getKey s room with
  | none =>
    rw [removeMember_no_room s room member hr]
    exact hnd
  | some rm =>
    cases hm : getKey rm member with
    | none =>
      rw [removeMember_no_member s room member rm hr hm]
      exact hnd
    | some r =>
      rw [removeMember_del s room member rm hr (by simp [hm])]
      exact keysNodup_setKey _ _ _ hnd

theorem mem_removeMember (s : Store) (room member : String) (p : String × RoomMap)
    (hp : p ∈ removeMember s room member) :
    (p.1 = room ∧ p.2 = delKey ((getKey s room).getD []) member) ∨ p ∈ s := by
  cases hr : getKey s room with
  | none =>
    rw [removeMember_no_room s room member hr] at hp
    exact Or.inr hp
  | some rm =>
    cases hm : getKey rm member with
    | none =>
      rw [removeMember_no_member s room member rm hr hm] at hp
      exact Or.inr hp
    | some r =>
      rw [removeMember_del s room member rm hr (by simp [hm])] at hp
      rcases mem_setKey _ _ _ _ hp with hp | hp
      · exact Or.inl (by simp [hp, hr])
      · exact Or.inr hp

theorem noEmptyRooms_cleanupRoom (s : Store) (room : String)
    (hnd : (s.map Prod.fst).Nodup)
    (h : ∀ p ∈ s, p.1 ≠ room → p.2 ≠ []) :
    NoEmptyRooms (cleanupRoom s room) := by
  cases hr : getKey s room with
  | none =>
    rw [cleanupRoom_no_room s room hr]
    intro p hp
    refine h p hp fun hroom => ?_
    have hg := getKey_of_mem_nodup s p hnd hp
    rw [hroom, hr] at hg
    exact Option.noConfusion hg
  | some rm =>
    by_cases he : rm.isEmpty
    · rw [cleanupRoom_del s room rm hr he]
      intro p hp
      obtain ⟨hmem, hne⟩ := mem_delKey _ _ _ hp
      exact h p hmem hne
    · simp only [Bool.not_eq_true] at he
      rw [cleanupRoom_keep s room rm hr he]
      intro p hp
      by_cases hroom : p.1 = room
      · have hg := getKey_of_mem_nodup s p hnd hp
        rw [hroom, hr] at hg
        injection hg with hh
        intro hnil
        rw [hnil] at hh
        rw [hh] at he
        simp [List.isEmpty] at he
      · exact h p hp hroom

theorem noEmptyRooms_leaveOp (s : Store) (room member : String)
    (hnd : (s.map Prod.fst).Nodup) (h : NoEmptyRooms s) :
    NoEmptyRooms (leaveOp s room member) := by
  rw [leaveOp]
  apply noEmptyRooms_cleanupRoom _ _ (keysNodup_removeMember _ _ _ hnd)
  intro p hp hne
  rcases mem_removeMember _ _ _ _ hp with hp | hp
  · exact absurd hp.1 hne
  · exact h p hp

theorem noEmptyRooms_sweep (s : Store) (now timeout : Nat) :
    NoEmptyRooms (sweep s now timeout) := by
  intro p hp
  rw [sweep] at hp
  have := List.of_mem_filter hp
  intro hnil
  rw [hnil] at this
  simp at this

/-! ### Leave: removal and idempotence lemmas -/

theorem recordOf_leaveOp_self (s : Store) (room member : String) :
    recordOf (leaveOp s room member) room member = none := by
  rw [leaveOp]
  cases hr : getKey s room with
  | none =>
    rw [removeMember_no_room s room member hr, cleanupRoom_no_room s room hr]
    rw [recordOf, hr]
    rfl
  | some rm =>
    cases hm : getKey rm member with
    | none =>
      rw [removeMember_no_member s room member rm hr hm]
      by_cases he : rm.isEmpty
      · rw [cleanupRoom_del s room rm hr he, recordOf, getKey_delKey_self]
        rfl
      · simp only [Bool.not_eq_true] at he
        rw [cleanupRoom_keep s room rm hr he, recordOf, hr]
        exact hm
    | some r =>
      rw [removeMember_del s room member rm hr (by simp [hm])]
      have hget : getKey (setKey s room (delKey rm member)) room
          = some (delKey rm member) :=
        getKey_setKey_self s room (delKey rm member)
      by_cases he : (delKey rm member).isEmpty
      · rw [cleanupRoom_del _ room _ hget he, recordOf, getKey_delKey_self]
        rfl
      · simp only [Bool.not_eq_true] at he
        rw [cleanupRoom_keep _ room _ hget he, recordOf, hget]
        simp only [Option.getD]
        exact getKey_delKey_self rm member

theorem leaveOp_no_op (s : Store) (room member : String)
    (hinv : NoEmptyRooms s) (habs : recordOf s room member = none) :
    leaveOp s room member = s := by
  rw [leaveOp]
  cases hr : getKey s room with
  | none =>
    rw [removeMember_no_room s room member hr, cleanupRoom_no_room s room hr]
  | some rm =>
    have hm : getKey rm member = none := by
      rw [recordOf, hr] at habs
      exact habs
    rw [removeMember_no_member s room member rm hr hm]
    have hne : rm ≠ [] := hinv (room, rm) (getKey_mem s room rm hr)
    rw [cleanupRoom_keep s room rm hr (isEmpty_false_of_ne_nil rm hne)]

/-! ### Sweep characterization -/

theorem getKey_filter_none {α : Type} (l : List (String × α)) (q : String × α → Bool)
    (k : String) (hnd : (l.map Prod.fst).Nodup) (h : getKey l k = none) :
    getKey (l.filter q) k = none := by
  rw [getKey_filter l q k hnd, h]

theorem getKey_filter_some {α : Type} (l : List (String × α)) (q : String × α → Bool)
    (k : String) (v : α) (hnd : (l.map Prod.fst).Nodup) (h : getKey l k = some v) :
    getKey (l.filter q) k = if q (k, v) then some v else none := by
  rw [getKey_filter l q k hnd, h]

theorem sweep_keys_nodup (s : Store) (now timeout : Nat)
    (hnd : (s.map Prod.fst).Nodup) :
    ((s.map (fun p => (p.1, p.2.filter (fun q => !(isStale now timeout q.2))))).map
        Prod.fst).Nodup := by
  rw [List.map_map]
  exact hnd

theorem getKey_sweep_none (s : Store) (now timeout : Nat) (room : String)
    (hnd : (s.map Prod.fst).Nodup) (hr : getKey s room = none) :
    getKey (sweep s now timeout) room = none := by
  rw [sweep]
  apply getKey_filter_none _ _ _ (sweep_keys_nodup s now timeout hnd)
  rw [getKey_map_snd, hr]
  rfl

theorem getKey_sweep_some (s : Store) (now timeout : Nat) (room : String) (rm : RoomMap)
    (hnd : (s.map Prod.fst).Nodup) (hr : getKey s room = some rm) :
    getKey (sweep s now timeout) room =
      if (rm.filter (fun q => !(isStale now timeout q.2))).isEmpty then none
      else some (rm.filter (fun q => !(isStale now timeout q.2))) := by
  rw [sweep]
  have hmap :
      getKey (s.map (fun p => (p.1, p.2.filter (fun q => !(isStale now timeout q.2)))))
          room
        = some (rm.filter (fun q => !(isStale now timeout q.2))) := by
    rw [getKey_map_snd, hr]
    rfl
  rw [getKey_filter_some _ _ _ _ (sweep_keys_nodup s now timeout hnd) hmap]
  by_cases he : (rm.filter (fun q => !(isStale now timeout q.2))).isEmpty
  · simp [he]
  · simp only [Bool.not_eq_true] at he
    simp [he]

theorem recordOf_sweep (s : Store) (now timeout : Nat) (room member : String)
    (r : MemberRecord) (hwf : WFStore s) (h : recordOf s room member = some r) :
    recordOf (sweep s now timeout) room member
      = if isStale now timeout r then none else some r := by
  cases hr : getKey s room with
  | none =>
    rw [recordOf, hr] at h
    exact absurd h (by simp [getKey])
  | some rm =>
    have hm : getKey rm member = some r := by
      rw [recordOf, hr] at h
      exact h
    have hrmnd : (rm.map Prod.fst).Nodup := hwf.2 (room, rm) (getKey_mem s room rm hr)
    have hfs := getKey_filter_some rm (fun q => !(isStale now timeout q.2)) member r
      hrmnd hm
    by_cases hstale : isStale now timeout r
    · rw [if_pos hstale]
      rw [recordOf, getKey_sweep_some s now timeout room rm hwf.1 hr]
      by_cases he : (rm.filter (fun q => !(isStale now timeout q.2))).isEmpty
      · rw [if_pos he]
        rfl
      · rw [if_neg he]
        simp only [Option.getD]
        rw [hfs]
        simp [hstale]
    · rw [if_neg hstale]
      simp only [Bool.not_eq_true] at hstale
      have hfs' : getKey (rm.filter (fun q => !(isStale now timeout q.2))) member
          = some r := by
        rw [hfs]
        simp [hstale]
      have hne : rm.filter (fun q => !(isStale now timeout q.2)) ≠ [] := by
        intro hnil
        rw [hnil] at hfs'
        simp [getKey] at hfs'
      rw [recordOf, getKey_sweep_some s now timeout room rm hwf.1 hr,
        if_neg (by simp [isEmpty_false_of_ne_nil _ hne])]
      simp only [Option.getD]
      exact hfs'

/-! ### Call sequences for one (room, member) pair -/

theorem recordOf_applyCall (s : Store) (room member : String) (c : Call) :
    recordOf (applyCall s room member c) room member
      = some (recAfter (recordOf s room member) c) := by
  cases c with
  | join t => exact recordOf_joinOp_self s room member t
  | heartbeat t => exact recordOf_heartbeatOp_self s room member t

theorem recordOf_runCalls (room member : String) (cs : List Call) :
    ∀ (s : Store) (j l : Nat), 0 < j →
      recordOf s room member = some ⟨j, l⟩ →
      (∀ c ∈ cs, 0 < c.time) →
      recordOf (runCalls s room member cs) room member
        = some ⟨specJoinedAt j cs, specLastSeen l cs⟩ := by
  induction cs with
  | nil =>
    intro s j l hj hrec hpos
    rw [runCalls, specJoinedAt, specLastSeen]
    exact hrec
  | cons c cs ih =>
    intro s j l hj hrec hpos
    rw [runCalls]
    have hpostail : ∀ c ∈ cs, 0 < c.time :=
      fun x hx => hpos x (List.mem_cons_of_mem _ hx)
    cases c with
    | join t =>
      have ht : 0 < t := hpos (Call.join t) (List.mem_cons_self _ _)
      have hstep : recordOf (applyCall s room member (Call.join t)) room member
          = some ⟨t, t⟩ := recordOf_applyCall s room member (Call.join t)
      exact ih (applyCall s room member (Call.join t)) t t ht hstep hpostail
    | heartbeat t =>
      have hstep : recordOf (applyCall s room member (Call.heartbeat t)) room member
          = some ⟨j, t⟩ := by
        rw [recordOf_applyCall s room member (Call.heartbeat t), hrec]
        simp [recAfter, hbJoinedAt, Nat.pos_iff_ne_zero.mp hj]
      exact ih (applyCall s room member (Call.heartbeat t)) j t hj hstep hpostail

/-! ## Claim theorems -/

/-- Claim C1, counterexample: the claim says `joinedAt` equals the timestamp
of the first call of the sequence and is never changed by later joins, but
after the sequence [join at 1, join at 5] the stored record is
`{joinedAt: 5, lastSeen: 5}`: the second join reset `joinedAt`, which is not
the first call's timestamp 1. -/
theorem claim1_counterexample :
    recordOf (runCalls [] "lobby" "alice" [Call.join 1, Call.join 5]) "lobby" "alice"
        = some ⟨5, 5⟩
      ∧ Call.time (Call.join 1) = 1 ∧ (5 : Nat) ≠ 1 := by
  refine ⟨?_, rfl, by decide⟩
  rfl

/-- Claim C1 as amended: for every nonempty sequence of join/heartbeat calls
for the same (room, member) pair with positive timestamps, run from a store
not yet containing the pair, `lastSeen` of the resulting record equals the
timestamp of the most recent call, and `joinedAt` equals the timestamp of
the most recent join call — or of the first call when no later join occurs
(`joinedAt` is preserved by heartbeats but reset by every join). -/
theorem claim1_amended (room member : String) (c : Call) (cs : List Call)
    (hpos : ∀ x ∈ c :: cs, 0 < Call.time x) :
    recordOf (runCalls [] room member (c :: cs)) room member
      = some ⟨specJoinedAt c.time cs, specLastSeen c.time cs⟩ := by
  rw [runCalls]
  have hstep : recordOf (applyCall [] room member c) room member
      = some ⟨c.time, c.time⟩ := by
    rw [recordOf_applyCall]
    cases c with
    | join t => rfl
    | heartbeat t => rfl
  exact recordOf_runCalls room member cs (applyCall [] room member c) c.time c.time
    (hpos c (List.mem_cons_self _ _)) hstep
    (fun x hx => hpos x (List.mem_cons_of_mem _ hx))

/-- Witness for the amended C1: join at 1 then heartbeat at 5 yields
`{joinedAt: 1, lastSeen: 5}`. -/
theorem claim1_witness :
    recordOf (runCalls [] "lobby" "alice" [Call.join 1, Call.heartbeat 5])
        "lobby" "alice"
      = some ⟨1, 5⟩ :=
  claim1_amended "lobby" "alice" (Call.join 1) [Call.heartbeat 5] (by decide)

/-- Claim C2: `sweep(now, timeout)` evicts a member exactly when
`now - lastSeen > timeout` (strict, computed as in JS number arithmetic);
a member whose record does not satisfy the condition remains in the store
with an unchanged record. -/
theorem claim2_sweep (s : Store) (now timeout : Nat) (room member : String)
    (r : MemberRecord) (hwf : WFStore s) (h : recordOf s room member = some r) :
    recordOf (sweep s now timeout) room member
      = if (now : Int) - (r.lastSeen : Int) > (timeout : Int) then none else some r := by
  rw [recordOf_sweep s now timeout room member r hwf h, isStale]
  by_cases hs : (now : Int) - (r.lastSeen : Int) > (timeout : Int)
  · rw [if_pos (decide_eq_true hs), if_pos hs]
  · rw [if_neg (by simp [hs]), if_neg hs]

/-- Witness for C2: with `lastSeen = 1000` and timeout 45000, the sweep at
`now = 1000 + 46000` evicts the member and the sweep at `now = 1000 + 44000`
leaves the record untouched. -/
theorem claim2_witness :
    recordOf (sweep [("lobby", [("alice", ⟨0, 1000⟩)])] 47000 45000) "lobby" "alice"
        = none
  ∧ recordOf (sweep [("lobby", [("alice", ⟨0, 1000⟩)])] 45000 45000) "lobby" "alice"
        = some ⟨0, 1000⟩ := by
  constructor
  · have h := claim2_sweep [("lobby", [("alice", ⟨0, 1000⟩)])] 47000 45000
      "lobby" "alice" ⟨0, 1000⟩ (by constructor <;> decide) rfl
    rwa [if_pos (by decide)] at h
  · have h := claim2_sweep [("lobby", [("alice", ⟨0, 1000⟩)])] 45000 45000
      "lobby" "alice" ⟨0, 1000⟩ (by constructor <;> decide) rfl
    rwa [if_neg (by decide)] at h

/-- Claim C3: after any single store operation (join, heartbeat, leave) or a
sweep pass, every room key present in the store has at least one member
record (the other direction — a member record only existing under a present
room key — is definitional).  In particular, leave and sweep delete the room
key when they remove a room's last member. -/
theorem claim3_invariant (s : Store) (hnd : (s.map Prod.fst).Nodup)
    (h : NoEmptyRooms s) :
    (∀ room member now, NoEmptyRooms (joinOp s room member now))
  ∧ (∀ room member now, NoEmptyRooms (heartbeatOp s room member now))
  ∧ (∀ room member, NoEmptyRooms (leaveOp s room member))
  ∧ (∀ now timeout, NoEmptyRooms (sweep s now timeout)) :=
  ⟨fun room member now => noEmptyRooms_joinOp s room member now h,
   fun room member now => noEmptyRooms_heartbeatOp s room member now h,
   fun room member => noEmptyRooms_leaveOp s room member hnd h,
   fun now timeout => noEmptyRooms_sweep s now timeout⟩

/-- Witness for C3: removing the last member of "lobby" leaves no empty room. -/
theorem claim3_witness :
    NoEmptyRooms (leaveOp [("lobby", [("alice", ⟨1, 1⟩)])] "lobby" "alice") :=
  (claim3_invariant [("lobby", [("alice", ⟨1, 1⟩)])] (by decide)
    (by decide)).2.2.1 "lobby" "alice"

/-- Claim C4: when `room` or `member` is missing or empty, join, heartbeat
and leave all answer the 400 validation error and leave the store unchanged. -/
theorem claim4_validation (s : Store) (roomName username : Option String) (now : Nat)
    (h : falsy roomName = true ∨ falsy username = true) :
    joinHandler s roomName username now
        = (s, ApiResponse.validationError "roomName and username required")
  ∧ heartbeatHandler s roomName username now
        = (s, ApiResponse.validationError "roomName and username required")
  ∧ leaveHandler s roomName username
        = (s, ApiResponse.validationError "roomName and username required")
  ∧ (ApiResponse.validationError "roomName and username required").status = 400 := by
  have hc : (falsy roomName || falsy username) = true := by
    rcases h with h | h <;> simp [h]
  refine ⟨?_, ?_, ?_, rfl⟩
  · unfold joinHandler
    rw [if_pos hc]
  · unfold heartbeatHandler
    rw [if_pos hc]
  · unfold leaveHandler
    rw [if_pos hc]

/-- Witness for C4: a missing room name is rejected without touching the store. -/
theorem claim4_witness :
    joinHandler [] none (some "alice") 5
      = ([], ApiResponse.validationError "roomName and username required") :=
  (claim4_validation [] none (some "alice") 5 (Or.inl rfl)).1

/-- Claim C5: `listActive` never errors (status 200), never mutates the
store, reports a count equal to the length of the returned user list, and
answers count 0 with an empty list for a room absent from the store. -/
theorem claim5_list (s : Store) (roomName : String) :
    (listHandler s roomName).1 = s
  ∧ (listHandler s roomName).2.status = 200
  ∧ (∃ users, (listHandler s roomName).2
        = ApiResponse.roomList roomName users.length users)
  ∧ (getKey s roomName = none →
        (listHandler s roomName).2 = ApiResponse.roomList roomName 0 []) := by
  refine ⟨rfl, rfl, ⟨_, rfl⟩, ?_⟩
  intro h
  unfold listHandler
  rw [h]
  rfl

/-- Witness for C5: an unknown room yields count 0 and the empty list. -/
theorem claim5_witness :
    (listHandler [] "lobby").2 = ApiResponse.roomList "lobby" 0 [] :=
  (claim5_list [] "lobby").2.2.2 rfl

/-- Claim C6: for valid inputs, join answers 200 with the room's full
post-operation membership map (so the caller appears in it, with
`joinedAt = lastSeen = now`); heartbeat answers the same membership map;
a heartbeat for a pair with no record silently creates one. -/
theorem claim6_join_heartbeat (s : Store) (room member : String) (now : Nat)
    (hr : room ≠ "") (hm : member ≠ "") :
    (joinHandler s (some room) (some member) now).2
        = ApiResponse.joined "Joined room"
            ((getKey ((joinHandler s (some room) (some member) now).1) room).getD [])
  ∧ recordOf ((joinHandler s (some room) (some member) now).1) room member
        = some ⟨now, now⟩
  ∧ (heartbeatHandler s (some room) (some member) now).2
        = ApiResponse.heartbeatOk
            ((getKey ((heartbeatHandler s (some room) (some member) now).1) room).getD [])
  ∧ (recordOf s room member = none →
        recordOf ((heartbeatHandler s (some room) (some member) now).1) room member
          = some ⟨now, now⟩) := by
  have hc : ¬((falsy (some room) || falsy (some member)) = true) := by
    simp [falsy, hr, hm]
  have hjoin : joinHandler s (some room) (some member) now
      = (joinOp s room member now,
         ApiResponse.joined "Joined room"
           ((getKey (joinOp s room member now) room).getD [])) := by
    unfold joinHandler
    rw [if_neg hc]
    rfl
  have hhb : heartbeatHandler s (some room) (some member) now
      = (heartbeatOp s room member now,
         ApiResponse.heartbeatOk
           ((getKey (heartbeatOp s room member now) room).getD [])) := by
    unfold heartbeatHandler
    rw [if_neg hc]
    rfl
  refine ⟨by rw [hjoin], ?_, by rw [hhb], ?_⟩
  · rw [hjoin]
    exact recordOf_joinOp_self s room member now
  · intro habs
    rw [hhb]
    show recordOf (heartbeatOp s room member now) room member = some ⟨now, now⟩
    rw [recordOf_heartbeatOp_self s room member now, habs]
    rfl

/-- Witness for C6: joining an empty store creates the caller's record, and
a heartbeat for a never-joined pair silently creates its record. -/
theorem claim6_witness :
    recordOf ((joinHandler [] (some "lobby") (some "alice") 7).1) "lobby" "alice"
        = some ⟨7, 7⟩
  ∧ recordOf ((heartbeatHandler [] (some "lobby") (some "alice") 9).1) "lobby" "alice"
        = some ⟨9, 9⟩ := by
  constructor
  · exact (claim6_join_heartbeat [] "lobby" "alice" 7 (by decide) (by decide)).2.1
  · exact (claim6_join_heartbeat [] "lobby" "alice" 9 (by decide) (by decide)).2.2.2 rfl

/-- Claim C7: leave always answers the same success acknowledgment; a second
leave for the same pair answers identically and changes nothing; when the
member (or the room) does not exist, the store is left unchanged. -/
theorem claim7_leave (s : Store) (room member : String)
    (hr : room ≠ "") (hm : member ≠ "")
    (hnd : (s.map Prod.fst).Nodup) (hinv : NoEmptyRooms s) :
    (leaveHandler s (some room) (some member)).2 = ApiResponse.left "Left room"
  ∧ leaveHandler ((leaveHandler s (some room) (some member)).1)
        (some room) (some member)
      = ((leaveHandler s (some room) (some member)).1, ApiResponse.left "Left room")
  ∧ (recordOf s room member = none → (leaveHandler s (some room) (some member)).1 = s) := by
  have hc : ¬((falsy (some room) || falsy (some member)) = true) := by
    simp [falsy, hr, hm]
  have hlv : ∀ t : Store, leaveHandler t (some room) (some member)
      = (leaveOp t room member, ApiResponse.left "Left room") := by
    intro t
    unfold leaveHandler
    rw [if_neg hc]
    rfl
  refine ⟨by rw [hlv], ?_, ?_⟩
  · rw [hlv, hlv]
    have h1 : NoEmptyRooms (leaveOp s room member) :=
      noEmptyRooms_leaveOp s room member hnd hinv
    have h2 : recordOf (leaveOp s room member) room member = none :=
      recordOf_leaveOp_self s room member
    rw [leaveOp_no_op (leaveOp s room member) room member h1 h2]
  · intro habs
    rw [hlv]
    exact leaveOp_no_op s room member hinv habs

/-- Witness for C7: leaving twice changes nothing the second time, and
leaving a room one is not in leaves the store untouched. -/
theorem claim7_witness :
    leaveHandler ((leaveHandler [("lobby", [("alice", ⟨1, 2⟩)])]
          (some "lobby") (some "alice")).1) (some "lobby") (some "alice")
      = ((leaveHandler [("lobby", [("alice", ⟨1, 2⟩)])]
            (some "lobby") (some "alice")).1, ApiResponse.left "Left room")
  ∧ (leaveHandler [("den", [("bob", ⟨1, 1⟩)])] (some "lobby") (some "alice")).1
      = [("den", [("bob", ⟨1, 1⟩)])] := by
  constructor
  · exact (claim7_leave [("lobby", [("alice", ⟨1, 2⟩)])] "lobby" "alice"
      (by decide) (by decide) (by decide) (by decide)).2.1
  · exact (claim7_leave [("den", [("bob", ⟨1, 1⟩)])] "lobby" "alice"
      (by decide) (by decide) (by decide) (by decide)).2.2 rfl

/-- Claim C9: the upload route persists a photo record only when the
media-host upload succeeded: whenever the upload step fails, nothing is
saved and the handler answers the 500 error response; this also holds for
the upload-route variant.  Conversely a persisted record implies a
successful upload. -/
theorem claim9_upload (files : List UFile) (roomName username : Option String)
    (e : String) (dbSave tempWrite : Except String Unit)
    (hfiles : files ≠ []) :
    (uploadHandler files roomName username (Except.error e) dbSave).1 = none
  ∧ (uploadHandler files roomName username (Except.error e) dbSave).2
      = UploadResponse.serverError e
  ∧ (∀ (upl : Except String UploadResult) (dbs : Except String Unit) (p : Photo),
        (uploadHandler files roomName username upl dbs).1 = some p →
        ∃ result, upl = Except.ok result)
  ∧ (uploadHandlerVariant files roomName username tempWrite (Except.error e) dbSave).1
      = none := by
  cases files with
  | nil => exact absurd rfl hfiles
  | cons f fs =>
    refine ⟨rfl, rfl, ?_, ?_⟩
    · intro upl dbs p hp
      cases upl with
      | error e2 => simp [uploadHandler] at hp
      | ok result => exact ⟨result, rfl⟩
    · cases tempWrite with
      | error e2 => rfl
      | ok u => rfl

/-- Witness for C9: a failing Cloudinary upload saves nothing and answers 500. -/
theorem claim9_witness :
    (uploadHandler [⟨"pic.png", "bytes"⟩] (some "lobby") (some "alice")
        (Except.error "boom") (Except.ok ())).1 = none
  ∧ (uploadHandler [⟨"pic.png", "bytes"⟩] (some "lobby") (some "alice")
        (Except.error "boom") (Except.ok ())).2
      = UploadResponse.serverError "boom" := by
  have h := claim9_upload [⟨"pic.png", "bytes"⟩] (some "lobby") (some "alice")
    "boom" (Except.ok ()) (Except.ok ()) (by simp)
  exact ⟨h.1, h.2.1⟩

/-- Claim C10: join, heartbeat and leave for (room, member) do not touch any
other room's map, nor any other member's record within the same room. -/
theorem claim10_frame (s : Store) (room member room' member' : String) (now : Nat) :
    (room' ≠ room →
        getKey (joinOp s room member now) room' = getKey s room'
      ∧ getKey (heartbeatOp s room member now) room' = getKey s room'
      ∧ getKey (leaveOp s room member) room' = getKey s room')
  ∧ (member' ≠ member →
        recordOf (joinOp s room member now) room member' = recordOf s room member'
      ∧ recordOf (heartbeatOp s room member now) room member' = recordOf s room member'
      ∧ recordOf (leaveOp s room member) room member' = recordOf s room member') := by
  constructor
  · intro h
    exact ⟨getKey_joinOp_ne s room member room' now h,
           getKey_heartbeatOp_ne s room member room' now h,
           getKey_leaveOp_ne s room member room' h⟩
  · intro h
    exact ⟨recordOf_joinOp_ne_member s room member member' now h,
           recordOf_heartbeatOp_ne_member s room member member' now h,
           recordOf_leaveOp_ne_member s room member member' h⟩

/-- Witness for C10: a join in "lobby" leaves "den" untouched, and a leave
by "alice" leaves "bob"'s record in the same room untouched. -/
theorem claim10_witness :
    getKey (joinOp [("den", [("bob", ⟨1, 1⟩)])] "lobby" "alice" 5) "den"
        = getKey [("den", [("bob", ⟨1, 1⟩)])] "den"
  ∧ recordOf (leaveOp [("lobby", [("alice", ⟨1, 1⟩), ("bob", ⟨2, 2⟩)])]
          "lobby" "alice") "lobby" "bob"
      = recordOf [("lobby", [("alice", ⟨1, 1⟩), ("bob", ⟨2, 2⟩)])] "lobby" "bob" := by
  constructor
  · exact ((claim10_frame [("den", [("bob", ⟨1, 1⟩)])] "lobby" "alice" "den" "x" 5).1
      (by decide)).1
  · exact ((claim10_frame [("lobby", [("alice", ⟨1, 1⟩), ("bob", ⟨2, 2⟩)])]
      "lobby" "alice" "r" "bob" 0).2 (by decide)).2.2

end VibeShare
